import Mathlib

/-!
Verification of the conversion-job lifecycle of the file-conversion backend.

The development shallowly embeds the job record store (`MockStorage` in
`payment-routes.ts`, the implementation actually bound to `storage`), the
ingress handlers `POST /api/conversions`, `POST /api/conversions/batch` and
`GET /api/download/:id` of `routes.ts`, and the deferred `setTimeout`
callback that drives each job to a terminal status.

The store is a JavaScript `Map<string, Conversion>`, modelled as an
association list in insertion order: `Map.set` updates the (unique) entry
in place or appends, `Map.delete` removes it, `Map.prototype.values`
iterates in insertion order.
-/

namespace ConvBackend

/-- The status strings stored in the `status` column
(`pending, processing, completed, failed` per the schema comment). -/
inductive Status where
  | pending
  | processing
  | completed
  | failed
deriving DecidableEq, Repr

/-- Result of `JSON.parse` on the optional `settings` field: either the
default empty object `{}` or whatever object the parse produced
(opaque to the rest of the system). -/
inductive SettingsVal where
  | emptyObj
  | objVal (raw : String)
deriving DecidableEq, Repr

/-- The `metadata` JSON column, restricted to the keys this system reads or
writes: `quality` and `settings` (single submit), `isBatch` (batch submit),
`batchId` and `batchSize` (stamped by `createBatchConversion`). -/
structure Metadata where
  quality : Option String := none
  settings : Option SettingsVal := none
  isBatch : Option Bool := none
  batchId : Option String := none
  batchSize : Option Nat := none
deriving DecidableEq, Repr

/-- A row of the `conversions` table (`Conversion` in `@shared/schema`). -/
structure Conversion where
  id : String
  fromFormat : String
  toFormat : String
  originalFilename : String
  filePath : String
  fileSize : Nat
  status : Status
  downloadUrl : Option String
  createdAt : Nat
  completedAt : Option Nat
  metadata : Option Metadata
deriving DecidableEq, Repr

/-- `InsertConversion`: the insert schema omits `id`, `createdAt`,
`completedAt`; `status`, `downloadUrl` and `metadata` have defaults
applied at creation. -/
structure InsertConversion where
  fromFormat : String
  toFormat : String
  originalFilename : String
  filePath : String
  fileSize : Nat
  status : Option Status := none
  downloadUrl : Option String := none
  metadata : Option Metadata := none
deriving DecidableEq, Repr

/-- `Partial<Conversion>`: every field optionally present.  A `some` in an
outer position means the key is present in the update object; for the
nullable columns (`downloadUrl`, `completedAt`, `metadata`) the inner
`Option` is the stored nullable value itself. -/
structure ConversionUpdate where
  id : Option String := none
  fromFormat : Option String := none
  toFormat : Option String := none
  originalFilename : Option String := none
  filePath : Option String := none
  fileSize : Option Nat := none
  status : Option Status := none
  downloadUrl : Option (Option String) := none
  createdAt : Option Nat := none
  completedAt : Option (Option Nat) := none
  metadata : Option (Option Metadata) := none
deriving DecidableEq, Repr

/-- The in-memory store: `private conversions: Map<string, Conversion>`,
kept in insertion order with unique keys. -/
abbrev Store := List (String × Conversion)

/-- `Map.prototype.get`. -/
def mapGet : Store → String → Option Conversion
  | [], _ => none
  | p :: rest, key => if p.1 = key then some p.2 else mapGet rest key

/-- `Map.prototype.set`: replace the entry for the key in place when
present, append otherwise. -/
def mapSet : Store → String → Conversion → Store
  | [], key, c => [(key, c)]
  | p :: rest, key, c =>
      if p.1 = key then (key, c) :: rest else p :: mapSet rest key c

/-- `Map.prototype.delete`: remove the entry, report whether it existed. -/
def mapDelete : Store → String → Store × Bool
  | [], _ => ([], false)
  | p :: rest, key =>
      if p.1 = key then (rest, true)
      else
        let r := mapDelete rest key
        (p :: r.1, r.2)

/-- JavaScript `x || null` on a nullable string (the empty string is falsy). -/
def jsOrNull (o : Option String) : Option String :=
  match o with
  | none => none
  | some s => if s = "" then none else some s

/-- JavaScript `x || d` on an optional string. -/
def jsOr (o : Option String) (d : String) : String :=
  match o with
  | none => d
  | some s => if s = "" then d else s

/-- The record built by `MockStorage.createConversion` before insertion:
spread of the insert data plus server-assigned id, timestamps and
defaulted `status`/`downloadUrl`/`metadata`. -/
def buildConversion (freshId : String) (now : Nat) (ins : InsertConversion) :
    Conversion :=
  { id := freshId
    fromFormat := ins.fromFormat
    toFormat := ins.toFormat
    originalFilename := ins.originalFilename
    filePath := ins.filePath
    fileSize := ins.fileSize
    createdAt := now
    completedAt := none
    metadata := ins.metadata
    status := ins.status.getD Status.pending
    downloadUrl := jsOrNull ins.downloadUrl }

/-- `MockStorage.getConversion`. -/
def getConversion (s : Store) (id : String) : Option Conversion :=
  mapGet s id

/-- `MockStorage.createConversion`, with the `randomUUID()` id and the
`new Date()` timestamp passed explicitly. -/
def createConversion (s : Store) (freshId : String) (now : Nat)
    (ins : InsertConversion) : Store × Conversion :=
  let c := buildConversion freshId now ins
  (mapSet s freshId c, c)

/-- The object spread `{ ...existing, ...updates }` of
`MockStorage.updateConversion`: keys present in `updates` override. -/
def applySpread (c : Conversion) (u : ConversionUpdate) : Conversion :=
  { id := u.id.getD c.id
    fromFormat := u.fromFormat.getD c.fromFormat
    toFormat := u.toFormat.getD c.toFormat
    originalFilename := u.originalFilename.getD c.originalFilename
    filePath := u.filePath.getD c.filePath
    fileSize := u.fileSize.getD c.fileSize
    status := u.status.getD c.status
    downloadUrl := u.downloadUrl.getD c.downloadUrl
    createdAt := u.createdAt.getD c.createdAt
    completedAt := u.completedAt.getD c.completedAt
    metadata := u.metadata.getD c.metadata }

/-- `MockStorage.updateConversion`: absent id is returned as `none` with
the store untouched; otherwise the merged record replaces the entry. -/
def updateConversion (s : Store) (id : String) (u : ConversionUpdate) :
    Store × Option Conversion :=
  match getConversion s id with
  | none => (s, none)
  | some existing =>
      let updated := applySpread existing u
      (mapSet s id updated, some updated)

/-- `MockStorage.deleteConversion`. -/
def deleteConversion (s : Store) (id : String) : Store × Bool :=
  mapDelete s id

/-- The metadata stamped by `createBatchConversion`:
`{ ...(conv.metadata || {}), batchId, batchSize }`. -/
def stampBatch (b : String) (n : Nat) (m : Option Metadata) : Metadata :=
  let base := m.getD {}
  { base with batchId := some b, batchSize := some n }

/-- The loop body of `MockStorage.createBatchConversion`: create each
member via `createConversion` with the batch metadata stamped in, in
list order, collecting the results. -/
def createBatchLoop (b : String) (n : Nat) (now : Nat) :
    Store → List (String × InsertConversion) → Store × List Conversion
  | s, [] => (s, [])
  | s, (fid, ins) :: rest =>
      let r1 := createConversion s fid now
        { ins with metadata := some (stampBatch b n ins.metadata) }
      let r2 := createBatchLoop b n now r1.1 rest
      (r2.1, r1.2 :: r2.2)

/-- `MockStorage.createBatchConversion`, with the generated batch id and
the per-member `randomUUID()` ids passed explicitly. -/
def createBatchConversion (s : Store) (freshIds : List String) (b : String)
    (now : Nat) (batch : List InsertConversion) : Store × List Conversion :=
  createBatchLoop b batch.length now s (freshIds.zip batch)

/-- The membership test of `getBatchConversions`:
`conv.metadata && 'batchId' in conv.metadata && conv.metadata.batchId === batchId`. -/
def matchesBatch (b : String) (c : Conversion) : Bool :=
  match c.metadata with
  | some m =>
      match m.batchId with
      | some x => x == b
      | none => false
  | none => false

/-- `MockStorage.getBatchConversions`: filter the store's values (in
insertion order) by batch-id match. -/
def getBatchConversions (s : Store) (b : String) : List Conversion :=
  (s.map (fun p => p.2)).filter (matchesBatch b)

/-- A multer upload: `originalname`, server-local `path`, `size`,
`mimetype`. -/
structure UploadedFile where
  originalname : String
  path : String
  size : Nat
  mimetype : String
deriving DecidableEq, Repr

/-- JavaScript truthiness of an optional string request field
(`undefined` and `""` are falsy). -/
def truthy (o : Option String) : Bool :=
  match o with
  | none => false
  | some s => !(s == "")

/-- The settings-parsing block of the conversion handlers:
`let parsedSettings = {}; if (settings) try { parsedSettings = JSON.parse(settings) } catch { warn }`.
`parse` stands for `JSON.parse` restricted to this field; a parse failure
leaves the empty object. -/
def parseSettingsField (parse : String → Option SettingsVal)
    (settings : Option String) : SettingsVal :=
  match settings with
  | none => SettingsVal.emptyObj
  | some s =>
      if s = "" then SettingsVal.emptyObj
      else (parse s).getD SettingsVal.emptyObj

/-- The request body and file of `POST /api/conversions`. -/
structure SubmitRequest where
  file : Option UploadedFile
  fromFormat : Option String
  toFormat : Option String
  quality : Option String
  settings : Option String
deriving DecidableEq, Repr

/-- Outcome of a single submission: a 400 validation rejection with the
handler's error message, or the 201 response carrying the created record. -/
inductive SubmitResult where
  | validationError (msg : String)
  | created (c : Conversion)
deriving DecidableEq, Repr

/-- The insert payload `conversionData` built by `POST /api/conversions`
for a validated request. -/
def singleConversionData (parse : String → Option SettingsVal)
    (file : UploadedFile) (f t : String) (quality settings : Option String) :
    InsertConversion :=
  { fromFormat := f
    toFormat := t
    originalFilename := file.originalname
    filePath := file.path
    fileSize := file.size
    status := some Status.pending
    downloadUrl := none
    metadata := some
      { quality := some (jsOr quality "high")
        settings := some (parseSettingsField parse settings)
        isBatch := none
        batchId := none
        batchSize := none } }

/-- `POST /api/conversions`: reject a missing file, reject missing/empty
formats, parse optional settings non-fatally, create the record with
status `pending` and return it. -/
def postConversion (parse : String → Option SettingsVal) (s : Store)
    (req : SubmitRequest) (freshId : String) (now : Nat) :
    Store × SubmitResult :=
  match req.file with
  | none => (s, SubmitResult.validationError "No file uploaded")
  | some file =>
      match req.fromFormat, req.toFormat with
      | some f, some t =>
          if f = "" ∨ t = "" then
            (s, SubmitResult.validationError "Missing format parameters")
          else
            let r := createConversion s freshId now
              (singleConversionData parse file f t req.quality req.settings)
            (r.1, SubmitResult.created r.2)
      | _, _ => (s, SubmitResult.validationError "Missing format parameters")

/-- The update written by the deferred callback on success:
`{ status: "completed", downloadUrl: "/api/download/" + id, completedAt: new Date() }`. -/
def completedUpdate (id : String) (now : Nat) : ConversionUpdate :=
  { status := some Status.completed
    downloadUrl := some (some ("/api/download/" ++ id))
    completedAt := some (some now) }

/-- The update written by the deferred callback's catch branch:
`{ status: "failed" }`. -/
def failedUpdate : ConversionUpdate :=
  { status := some Status.failed }

/-- The deferred `setTimeout` callback for one job: on a normal run it
writes the completed update; if an error interrupts that update (leaving
it without effect) the catch branch writes the failed update instead. -/
def fireTimer (s : Store) (id : String) (now : Nat) (errored : Bool) :
    Store :=
  if errored then (updateConversion s id failedUpdate).1
  else (updateConversion s id (completedUpdate id now)).1

/-- Outcome of `GET /api/download/:id`: 404 for a missing record or a
missing artifact file, 400 for a record not yet completed, or the
streamed file. -/
inductive DownloadResult where
  | notFound
  | notReady
  | fileStream (path : String) (c : Conversion)
deriving DecidableEq, Repr

/-- `GET /api/download/:id`, with `fsExists` standing for the
`fs.access` existence check on the stored artifact path. -/
def resolveDownload (fsExists : String → Bool) (s : Store) (id : String) :
    DownloadResult :=
  match getConversion s id with
  | none => DownloadResult.notFound
  | some c =>
      if c.status = Status.completed then
        if fsExists c.filePath then DownloadResult.fileStream c.filePath c
        else DownloadResult.notFound
      else DownloadResult.notReady

/-- The request body and files of `POST /api/conversions/batch`. -/
structure BatchRequest where
  files : List UploadedFile
  fromFormat : Option String
  toFormat : Option String
  quality : Option String
  settings : Option String
deriving DecidableEq, Repr

/-- Outcome of a batch submission. -/
inductive BatchResult where
  | validationError (msg : String)
  | created (batchId : Option String) (conversions : List Conversion)
      (totalFiles : Nat)
deriving DecidableEq, Repr

/-- `(conversions[0].metadata as any)?.batchId` of the batch response. -/
def firstBatchId (cs : List Conversion) : Option String :=
  match cs with
  | [] => none
  | c :: _ =>
      match c.metadata with
      | some m => m.batchId
      | none => none

/-- One element of the `conversionsData` array built by
`POST /api/conversions/batch` for a validated request. -/
def batchConversionData (parse : String → Option SettingsVal)
    (f t : String) (quality settings : Option String)
    (file : UploadedFile) : InsertConversion :=
  { fromFormat := f
    toFormat := t
    originalFilename := file.originalname
    filePath := file.path
    fileSize := file.size
    status := some Status.pending
    downloadUrl := none
    metadata := some
      { quality := some (jsOr quality "high")
        settings := some (parseSettingsField parse settings)
        isBatch := some true
        batchId := none
        batchSize := none } }

/-- `POST /api/conversions/batch`: reject an empty file set or
missing/empty formats, build per-file insert payloads with
`isBatch: true` metadata, create them via `createBatchConversion`. -/
def postBatchConversion (parse : String → Option SettingsVal) (s : Store)
    (req : BatchRequest) (freshIds : List String) (b : String) (now : Nat) :
    Store × BatchResult :=
  if req.files.isEmpty then
    (s, BatchResult.validationError "No files uploaded")
  else
    match req.fromFormat, req.toFormat with
    | some f, some t =>
        if f = "" ∨ t = "" then
          (s, BatchResult.validationError "Missing format parameters")
        else
          let convsData := req.files.map
            (batchConversionData parse f t req.quality req.settings)
          let r := createBatchConversion s freshIds b now convsData
          (r.1, BatchResult.created (firstBatchId r.2) r.2 r.2.length)
    | _, _ => (s, BatchResult.validationError "Missing format parameters")

/-- The operations that touch the job store: single submission, batch
submission, the deferred terminal transition of one job's timer, and
deletion.  Fresh ids and timestamps are carried on the events. -/
inductive Event where
  | submit (req : SubmitRequest) (freshId : String) (now : Nat)
  | submitBatch (req : BatchRequest) (freshIds : List String)
      (batchId : String) (now : Nat)
  | fire (id : String) (now : Nat) (errored : Bool)
  | del (id : String)

/-- The ids an event draws from the UUID generator for record creation. -/
def eventCreated : Event → List String
  | Event.submit _ fid _ => [fid]
  | Event.submitBatch _ fids _ _ => fids
  | Event.fire _ _ _ => []
  | Event.del _ => []

/-- One step of the system: run the event's operation, keep the store. -/
def step (parse : String → Option SettingsVal) (s : Store) : Event → Store
  | Event.submit req fid now => (postConversion parse s req fid now).1
  | Event.submitBatch req fids b now =>
      (postBatchConversion parse s req fids b now).1
  | Event.fire id now e => fireTimer s id now e
  | Event.del id => (deleteConversion s id).1

/-- Run a sequence of events from a store. -/
def runTrace (parse : String → Option SettingsVal) (s : Store) :
    List Event → Store
  | [] => s
  | e :: rest => runTrace parse (step parse s e) rest

/-- Well-formed event sequences, relative to the ids already drawn from
the UUID generator (`created`) and the timers already fired (`fired`):
generated ids are globally fresh, and each created job's single timer
fires at most once and only for a generated id. -/
def wfEvents : List String → List String → List Event → Prop
  | _, _, [] => True
  | created, fired, Event.submit _ fid _ :: rest =>
      fid ∉ created ∧ wfEvents (fid :: created) fired rest
  | created, fired, Event.submitBatch _ fids _ _ :: rest =>
      fids.Nodup ∧ (∀ i ∈ fids, i ∉ created) ∧
        wfEvents (fids ++ created) fired rest
  | created, fired, Event.fire id _ _ :: rest =>
      id ∈ created ∧ id ∉ fired ∧ wfEvents created (id :: fired) rest
  | created, fired, Event.del _ :: rest => wfEvents created fired rest

/-- Accumulated generated ids after a sequence of events. -/
def afterCreated : List String → List Event → List String
  | c, [] => c
  | c, e :: rest => afterCreated (eventCreated e ++ c) rest

/-- Accumulated fired timers after a sequence of events. -/
def afterFired : List String → List Event → List String
  | f, [] => f
  | f, Event.fire id _ _ :: rest => afterFired (id :: f) rest
  | f, Event.submit _ _ _ :: rest => afterFired f rest
  | f, Event.submitBatch _ _ _ _ :: rest => afterFired f rest
  | f, Event.del _ :: rest => afterFired f rest

/-- The status of a job as an observer polling `get(id)` sees it. -/
def statusOf (s : Store) (id : String) : Option Status :=
  (getConversion s id).map (fun c => c.status)

/-! ### Association-list lemmas for the store operations -/

theorem mapGet_eq_none_iff {s : Store} {id : String} :
    mapGet s id = none ↔ ∀ p ∈ s, p.1 ≠ id := by
  induction s with
  | nil => simp [mapGet]
  | cons p rest ih =>
      by_cases h : p.1 = id
      · simp [mapGet, h]
      · simp [mapGet, h, ih]

theorem mapGet_mem {s : Store} {id : String} {c : Conversion}
    (h : mapGet s id = some c) : (id, c) ∈ s := by
  induction s with
  | nil => simp [mapGet] at h
  | cons p rest ih =>
      obtain ⟨a, b⟩ := p
      by_cases hp : a = id
      · rw [mapGet, if_pos hp] at h
        injection h with h2
        subst h2
        cases hp
        exact List.mem_cons_self _ _
      · rw [mapGet, if_neg hp] at h
        exact List.mem_cons_of_mem _ (ih h)

theorem mapGet_mapSet_same {s : Store} {id : String} {c : Conversion} :
    mapGet (mapSet s id c) id = some c := by
  induction s with
  | nil => simp [mapSet, mapGet]
  | cons p rest ih =>
      by_cases h : p.1 = id
      · simp [mapSet, h, mapGet]
      · simp [mapSet, h, mapGet, ih]

theorem mapGet_mapSet_other {s : Store} {id k : String} {c : Conversion}
    (h : k ≠ id) : mapGet (mapSet s id c) k = mapGet s k := by
  have h' : ¬ (id = k) := fun hh => h hh.symm
  induction s with
  | nil => simp [mapSet, mapGet, h']
  | cons p rest ih =>
      by_cases hp : p.1 = id
      · simp [mapSet, mapGet, hp, h']
      · simp [mapSet, mapGet, hp, ih]

theorem mapSet_of_not_mem {s : Store} {id : String} {c : Conversion}
    (h : ∀ p ∈ s, p.1 ≠ id) : mapSet s id c = s ++ [(id, c)] := by
  induction s with
  | nil => simp [mapSet]
  | cons p rest ih =>
      have hp : p.1 ≠ id := h p (List.mem_cons_self p rest)
      rw [mapSet, if_neg hp, ih (fun q hq => h q (List.mem_cons_of_mem p hq))]
      rfl

theorem mapSet_map_fst_of_get {s : Store} {id : String} {ex c : Conversion}
    (h : mapGet s id = some ex) :
    (mapSet s id c).map (fun p => p.1) = s.map (fun p => p.1) := by
  induction s with
  | nil => simp [mapGet] at h
  | cons p rest ih =>
      by_cases hp : p.1 = id
      · simp [mapSet, hp]
      · rw [mapGet, if_neg hp] at h
        simp [mapSet, hp, ih h]

theorem mem_mapSet_nodup {s : Store} {id : String} {c : Conversion}
    {p : String × Conversion}
    (hnd : (s.map (fun q => q.1)).Nodup) (h : p ∈ mapSet s id c) :
    p = (id, c) ∨ (p ∈ s ∧ p.1 ≠ id) := by
  induction s with
  | nil =>
      simp [mapSet] at h
      exact Or.inl h
  | cons q rest ih =>
      simp only [List.map_cons, List.nodup_cons] at hnd
      by_cases hq : q.1 = id
      · rw [mapSet, if_pos hq] at h
        rcases List.mem_cons.mp h with h1 | h1
        · exact Or.inl h1
        · right
          refine ⟨List.mem_cons_of_mem q h1, ?_⟩
          intro hpid
          exact hnd.1 (hq ▸ hpid ▸ List.mem_map_of_mem (fun r => r.1) h1)
      · rw [mapSet, if_neg hq] at h
        rcases List.mem_cons.mp h with h1 | h1
        · exact Or.inr ⟨h1 ▸ List.mem_cons_self q rest, h1 ▸ hq⟩
        · rcases ih hnd.2 h1 with h2 | h2
          · exact Or.inl h2
          · exact Or.inr ⟨List.mem_cons_of_mem q h2.1, h2.2⟩

theorem mapDelete_fst_sublist (s : Store) (id : String) :
    (mapDelete s id).1.Sublist s := by
  induction s with
  | nil => simp [mapDelete]
  | cons p rest ih =>
      by_cases hp : p.1 = id
      · rw [mapDelete, if_pos hp]
        exact (List.sublist_cons_self p rest)
      · rw [mapDelete, if_neg hp]
        exact List.Sublist.cons₂ p ih

theorem mapDelete_of_get_none {s : Store} {id : String}
    (h : mapGet s id = none) : mapDelete s id = (s, false) := by
  induction s with
  | nil => simp [mapDelete]
  | cons p rest ih =>
      by_cases hp : p.1 = id
      · rw [mapGet, if_pos hp] at h
        exact absurd h (by simp)
      · rw [mapGet, if_neg hp] at h
        rw [mapDelete, if_neg hp, ih h]

theorem mapGet_mapDelete_self {s : Store} {id : String}
    (hnd : (s.map (fun q => q.1)).Nodup) :
    mapGet (mapDelete s id).1 id = none := by
  induction s with
  | nil => simp [mapDelete, mapGet]
  | cons p rest ih =>
      simp only [List.map_cons, List.nodup_cons] at hnd
      by_cases hp : p.1 = id
      · rw [mapDelete, if_pos hp]
        rw [mapGet_eq_none_iff]
        intro q hq hqid
        exact hnd.1 (hp ▸ hqid ▸ List.mem_map_of_mem (fun r => r.1) hq)
      · rw [mapDelete, if_neg hp]
        show mapGet ((p :: (mapDelete rest id).1)) id = none
        rw [mapGet, if_neg hp]
        exact ih hnd.2

/-! ### The lifecycle invariant over well-formed traces -/

/-- The three states a stored job record can be in, relative to the set of
timers that have fired: freshly created (`pending`, no download url, no
completion time, its own timer still outstanding), completed by a clean
timer run, or failed by an errored timer run. -/
def JobStateOk (fired : List String) (key : String) (c : Conversion) : Prop :=
  (c.status = Status.pending ∧ c.downloadUrl = none ∧ c.completedAt = none ∧
     key ∉ fired)
  ∨ (c.status = Status.completed ∧
     c.downloadUrl = some ("/api/download/" ++ key) ∧
     c.completedAt ≠ none ∧ key ∈ fired)
  ∨ (c.status = Status.failed ∧ c.downloadUrl = none ∧ c.completedAt = none ∧
     key ∈ fired)

/-- Store invariant: keys are unique and drawn from the generated ids,
every record's `id` field agrees with its key, and every record is in one
of the three lifecycle states. -/
def Inv (created fired : List String) (s : Store) : Prop :=
  (s.map (fun p => p.1)).Nodup ∧
  ∀ p ∈ s, p.1 ∈ created ∧ p.2.id = p.1 ∧ JobStateOk fired p.1 p.2

theorem JobStateOk_cons {fired : List String} {key id : String}
    {c : Conversion} (hne : key ≠ id) (h : JobStateOk fired key c) :
    JobStateOk (id :: fired) key c := by
  rcases h with ⟨h1, h2, h3, h4⟩ | ⟨h1, h2, h3, h4⟩ | ⟨h1, h2, h3, h4⟩
  · exact Or.inl ⟨h1, h2, h3, by simp [hne, h4]⟩
  · exact Or.inr (Or.inl ⟨h1, h2, h3, List.mem_cons_of_mem _ h4⟩)
  · exact Or.inr (Or.inr ⟨h1, h2, h3, List.mem_cons_of_mem _ h4⟩)

theorem Inv_mono_created {created created' fired : List String} {s : Store}
    (hsub : created ⊆ created') (h : Inv created fired s) :
    Inv created' fired s :=
  ⟨h.1, fun p hp => ⟨hsub ((h.2 p hp).1), (h.2 p hp).2.1, (h.2 p hp).2.2⟩⟩

theorem Inv_nil (created fired : List String) : Inv created fired [] := by
  constructor
  · simp
  · intro p hp
    simp at hp

/-- Appending a fresh, pending, not-yet-fired record preserves the
invariant. -/
theorem Inv_insert_pending {created fired : List String} {s : Store}
    {fid : String} {c : Conversion}
    (hinv : Inv created fired s)
    (hmem : fid ∈ created)
    (hfired : fid ∉ fired)
    (hfresh : ∀ p ∈ s, p.1 ≠ fid)
    (hid : c.id = fid)
    (hst : c.status = Status.pending)
    (hurl : c.downloadUrl = none)
    (hca : c.completedAt = none) :
    Inv created fired (mapSet s fid c) := by
  rw [mapSet_of_not_mem hfresh]
  constructor
  · rw [List.map_append]
    rw [List.nodup_append]
    refine ⟨hinv.1, by simp, ?_⟩
    intro x hx
    simp only [List.map_cons, List.map_nil, List.mem_singleton]
    intro hx1
    rcases List.mem_map.mp hx with ⟨p, hp, hpx⟩
    exact hfresh p hp (hpx.trans hx1)
  · intro p hp
    rcases List.mem_append.mp hp with hp1 | hp1
    · exact hinv.2 p hp1
    · rcases List.mem_singleton.mp hp1 with rfl
      exact ⟨hmem, hid, Or.inl ⟨hst, hurl, hca, hfired⟩⟩

theorem Inv_delete {created fired : List String} {s : Store} {id : String}
    (hinv : Inv created fired s) :
    Inv created fired (deleteConversion s id).1 := by
  have hsub := mapDelete_fst_sublist s id
  constructor
  · exact (hsub.map (fun p => p.1)).nodup hinv.1
  · intro p hp
    exact hinv.2 p (hsub.mem hp)

/-- Firing the single outstanding timer of a job preserves the invariant,
moving the record (when still present) to `completed` on a clean run and
to `failed` on an errored run. -/
theorem Inv_fire {created fired : List String} {s : Store} {id : String}
    {now : Nat} {e : Bool}
    (hc : id ∈ created) (hf : id ∉ fired)
    (hinv : Inv created fired s) :
    Inv created (id :: fired) (fireTimer s id now e) := by
  cases hget : getConversion s id with
  | none =>
      have hstore : fireTimer s id now e = s := by
        unfold fireTimer updateConversion
        rw [hget]
        cases e <;> rfl
      rw [hstore]
      refine ⟨hinv.1, fun p hp => ?_⟩
      refine ⟨(hinv.2 p hp).1, (hinv.2 p hp).2.1, ?_⟩
      have hne : p.1 ≠ id := (mapGet_eq_none_iff.mp hget) p hp
      exact JobStateOk_cons hne ((hinv.2 p hp).2.2)
  | some ex =>
      have hmem := mapGet_mem hget
      have hex := hinv.2 _ hmem
      have hexid : ex.id = id := hex.2.1
      have hpend : ex.status = Status.pending ∧ ex.downloadUrl = none ∧
          ex.completedAt = none := by
        rcases hex.2.2 with ⟨h1, h2, h3, h4⟩ | ⟨h1, h2, h3, h4⟩ |
          ⟨h1, h2, h3, h4⟩
        · exact ⟨h1, h2, h3⟩
        · exact absurd h4 hf
        · exact absurd h4 hf
      cases e with
      | false =>
          have hstore : fireTimer s id now false =
              mapSet s id (applySpread ex (completedUpdate id now)) := by
            simp [fireTimer, updateConversion, hget]
          rw [hstore]
          constructor
          · rw [mapSet_map_fst_of_get hget]
            exact hinv.1
          · intro p hp
            rcases mem_mapSet_nodup hinv.1 hp with rfl | ⟨hp1, hpne⟩
            · refine ⟨hc, ?_, ?_⟩
              · show (applySpread ex (completedUpdate id now)).id = id
                simp [applySpread, completedUpdate, hexid]
              · refine Or.inr (Or.inl ?_)
                refine ⟨rfl, rfl, by simp [applySpread, completedUpdate], ?_⟩
                exact List.mem_cons_self _ _
            · have h := hinv.2 p hp1
              exact ⟨h.1, h.2.1, JobStateOk_cons hpne h.2.2⟩
      | true =>
          have hstore : fireTimer s id now true =
              mapSet s id (applySpread ex failedUpdate) := by
            simp [fireTimer, updateConversion, hget]
          rw [hstore]
          constructor
          · rw [mapSet_map_fst_of_get hget]
            exact hinv.1
          · intro p hp
            rcases mem_mapSet_nodup hinv.1 hp with rfl | ⟨hp1, hpne⟩
            · refine ⟨hc, ?_, ?_⟩
              · show (applySpread ex failedUpdate).id = id
                simp [applySpread, failedUpdate, hexid]
              · refine Or.inr (Or.inr ?_)
                refine ⟨rfl, ?_, ?_, List.mem_cons_self _ _⟩
                · show (applySpread ex failedUpdate).downloadUrl = none
                  simp [applySpread, failedUpdate, hpend.2.1]
                · show (applySpread ex failedUpdate).completedAt = none
                  simp [applySpread, failedUpdate, hpend.2.2]
            · have h := hinv.2 p hp1
              exact ⟨h.1, h.2.1, JobStateOk_cons hpne h.2.2⟩

theorem inv_get {created fired : List String} {s : Store} {id : String}
    {c : Conversion} (hinv : Inv created fired s)
    (h : getConversion s id = some c) :
    c.id = id ∧ JobStateOk fired id c := by
  have hm := mapGet_mem h
  have h2 := hinv.2 _ hm
  exact ⟨h2.2.1, h2.2.2⟩

theorem Inv_submit {parse : String → Option SettingsVal}
    {created fired : List String} {s : Store}
    {req : SubmitRequest} {fid : String} {now : Nat}
    (hfid : fid ∉ created) (hsub : fired ⊆ created)
    (hinv : Inv created fired s) :
    Inv (fid :: created) fired
      (step parse s (Event.submit req fid now)) := by
  have hcsub : created ⊆ fid :: created :=
    fun x hx => List.mem_cons_of_mem _ hx
  have hmono := Inv_mono_created hcsub hinv
  show Inv _ _ ((postConversion parse s req fid now).1)
  cases hfile : req.file with
  | none =>
      simp only [postConversion, hfile]
      exact hmono
  | some file =>
      cases hff : req.fromFormat with
      | none =>
          simp only [postConversion, hfile, hff]
          exact hmono
      | some f =>
          cases htf : req.toFormat with
          | none =>
              simp only [postConversion, hfile, hff, htf]
              exact hmono
          | some t =>
              simp only [postConversion, hfile, hff, htf]
              by_cases hv : f = "" ∨ t = ""
              · rw [if_pos hv]
                exact hmono
              · rw [if_neg hv]
                show Inv (fid :: created) fired
                  (mapSet s fid (buildConversion fid now
                    (singleConversionData parse file f t
                      req.quality req.settings)))
                refine Inv_insert_pending hmono
                  (List.mem_cons_self _ _)
                  (fun hh => hfid (hsub hh)) ?_ rfl rfl rfl rfl
                intro p hp hpid
                exact hfid (hpid ▸ (hinv.2 p hp).1)

theorem nodup_map_fst_zip {α β : Type} {l1 : List α} (l2 : List β)
    (h : l1.Nodup) : ((l1.zip l2).map (fun q => q.1)).Nodup := by
  induction l1 generalizing l2 with
  | nil => simp
  | cons a rest ih =>
      cases l2 with
      | nil => simp
      | cons b l2t =>
          simp only [List.zip_cons_cons, List.map_cons, List.nodup_cons]
          rcases List.nodup_cons.mp h with ⟨ha, hrest⟩
          refine ⟨?_, ih l2t hrest⟩
          intro hmem
          rcases List.mem_map.mp hmem with ⟨q, hq, hqa⟩
          exact ha (hqa ▸ (List.of_mem_zip hq).1)

theorem Inv_batchLoop {created fired : List String} {b : String}
    {n now : Nat} :
    ∀ (l : List (String × InsertConversion)) (s : Store),
    Inv created fired s →
    (∀ q ∈ l, q.1 ∈ created ∧ q.1 ∉ fired ∧ (∀ p ∈ s, p.1 ≠ q.1)) →
    (l.map (fun q => q.1)).Nodup →
    (∀ q ∈ l, q.2.status = some Status.pending ∧ q.2.downloadUrl = none) →
    Inv created fired (createBatchLoop b n now s l).1 := by
  intro l
  induction l with
  | nil => intro s hinv _ _ _; exact hinv
  | cons q rest ih =>
      obtain ⟨fid, ins⟩ := q
      intro s hinv hfr hnd hpend
      have hhead := hfr (fid, ins) (List.mem_cons_self _ _)
      have hpendh := hpend (fid, ins) (List.mem_cons_self _ _)
      simp only [List.map_cons, List.nodup_cons] at hnd
      show Inv created fired
        (createBatchLoop b n now
          (mapSet s fid (buildConversion fid now _)) rest).1
      have hfresh : ∀ p ∈ s, p.1 ≠ fid := hhead.2.2
      have hinv1 : Inv created fired
          (mapSet s fid (buildConversion fid now
            { ins with metadata := some (stampBatch b n ins.metadata) })) := by
        refine Inv_insert_pending hinv hhead.1 hhead.2.1 hfresh rfl ?_ ?_ rfl
        · show ins.status.getD Status.pending = Status.pending
          rw [hpendh.1]
          rfl
        · show jsOrNull ins.downloadUrl = none
          rw [hpendh.2]
          rfl
      refine ih _ hinv1 ?_ hnd.2
        (fun q hq => hpend q (List.mem_cons_of_mem _ hq))
      intro q hq
      have hq2 := hfr q (List.mem_cons_of_mem _ hq)
      refine ⟨hq2.1, hq2.2.1, ?_⟩
      intro p hp
      rw [mapSet_of_not_mem hfresh] at hp
      rcases List.mem_append.mp hp with hp1 | hp1
      · exact hq2.2.2 p hp1
      · rcases List.mem_singleton.mp hp1 with rfl
        show fid ≠ q.1
        intro hh
        exact hnd.1 (hh ▸ List.mem_map_of_mem (fun r => r.1) hq)

theorem Inv_submitBatch {parse : String → Option SettingsVal}
    {created fired : List String} {s : Store}
    {req : BatchRequest} {fids : List String} {b : String} {now : Nat}
    (hnd : fids.Nodup) (hfids : ∀ i ∈ fids, i ∉ created)
    (hsub : fired ⊆ created) (hinv : Inv created fired s) :
    Inv (fids ++ created) fired
      (step parse s (Event.submitBatch req fids b now)) := by
  have hcsub : created ⊆ fids ++ created :=
    fun x hx => List.mem_append.mpr (Or.inr hx)
  have hmono := Inv_mono_created hcsub hinv
  show Inv _ _ ((postBatchConversion parse s req fids b now).1)
  simp only [postBatchConversion]
  by_cases hempty : req.files.isEmpty
  · rw [if_pos hempty]
    exact hmono
  · rw [if_neg hempty]
    cases hff : req.fromFormat with
    | none =>
        cases htf : req.toFormat with
        | none => exact hmono
        | some t => exact hmono
    | some f =>
        cases htf : req.toFormat with
        | none => exact hmono
        | some t =>
            simp only []
            by_cases hv : f = "" ∨ t = ""
            · rw [if_pos hv]
              exact hmono
            · rw [if_neg hv]
              show Inv (fids ++ created) fired
                ((createBatchLoop b
                  (req.files.map (batchConversionData parse f t
                    req.quality req.settings)).length now s
                  (fids.zip (req.files.map (batchConversionData parse f t
                    req.quality req.settings)))).1)
              refine Inv_batchLoop _ s hmono ?_
                (nodup_map_fst_zip _ hnd) ?_
              · intro q hq
                have hq1 := (List.of_mem_zip hq).1
                refine ⟨List.mem_append.mpr (Or.inl hq1),
                  fun hh => hfids q.1 hq1 (hsub hh), ?_⟩
                intro p hp hpq
                exact hfids q.1 hq1 (hpq ▸ (hinv.2 p hp).1)
              · intro q hq
                have hq2 := (List.of_mem_zip hq).2
                rcases List.mem_map.mp hq2 with ⟨file, _, hfile⟩
                rw [← hfile]
                exact ⟨rfl, rfl⟩

theorem Inv_step {parse : String → Option SettingsVal}
    {created fired : List String} {s : Store} {e : Event}
    (hwfe : wfEvents created fired [e]) (hsub : fired ⊆ created)
    (hinv : Inv created fired s) :
    Inv (afterCreated created [e]) (afterFired fired [e])
      (step parse s e) := by
  cases e with
  | submit req fid now =>
      exact Inv_submit hwfe.1 hsub hinv
  | submitBatch req fids b now =>
      exact Inv_submitBatch hwfe.1 hwfe.2.1 hsub hinv
  | fire id now err =>
      exact Inv_fire hwfe.1 hwfe.2.1 hinv
  | del id =>
      exact Inv_delete hinv

theorem runTrace_wf_inv (parse : String → Option SettingsVal) :
    ∀ (es : List Event) (created fired : List String) (s : Store),
    wfEvents created fired es → fired ⊆ created → Inv created fired s →
    Inv (afterCreated created es) (afterFired fired es)
      (runTrace parse s es) ∧
    afterFired fired es ⊆ afterCreated created es := by
  intro es
  induction es with
  | nil => intro c f s _ hs hi; exact ⟨hi, hs⟩
  | cons e rest ih =>
      intro c f s hwf hs hi
      cases e with
      | submit req fid now =>
          obtain ⟨hfid, hrest⟩ := hwf
          have hstep := @Inv_submit parse c f s req fid now hfid hs hi
          have hs' : f ⊆ fid :: c :=
            fun x hx => List.mem_cons_of_mem _ (hs hx)
          exact ih (fid :: c) f _ hrest hs' hstep
      | submitBatch req fids b now =>
          obtain ⟨hnd, hfids, hrest⟩ := hwf
          have hstep := @Inv_submitBatch parse c f s req fids b now
            hnd hfids hs hi
          have hs' : f ⊆ fids ++ c :=
            fun x hx => List.mem_append.mpr (Or.inr (hs hx))
          exact ih (fids ++ c) f _ hrest hs' hstep
      | fire id now err =>
          obtain ⟨hidc, hidf, hrest⟩ := hwf
          have hstep := @Inv_fire c f s id now err hidc hidf hi
          have hs' : id :: f ⊆ c := by
            intro x hx
            rcases List.mem_cons.mp hx with rfl | hx1
            · exact hidc
            · exact hs hx1
          exact ih c (id :: f) _ hrest hs' hstep
      | del id =>
          exact ih c f _ hwf hs (Inv_delete hi)

theorem runTrace_append (parse : String → Option SettingsVal) (s : Store)
    (es1 es2 : List Event) :
    runTrace parse s (es1 ++ es2) =
      runTrace parse (runTrace parse s es1) es2 := by
  induction es1 generalizing s with
  | nil => rfl
  | cons e rest ih => simp [runTrace, ih]

theorem afterCreated_append (c : List String) (es1 es2 : List Event) :
    afterCreated c (es1 ++ es2) = afterCreated (afterCreated c es1) es2 := by
  induction es1 generalizing c with
  | nil => rfl
  | cons e rest ih => simp [afterCreated, ih]

theorem afterFired_eq (f : List String) (e : Event) (rest : List Event) :
    afterFired f (e :: rest) =
      afterFired (match e with
        | Event.fire id _ _ => id :: f
        | _ => f) rest := by
  cases e <;> rfl

theorem afterFired_append (f : List String) (es1 es2 : List Event) :
    afterFired f (es1 ++ es2) = afterFired (afterFired f es1) es2 := by
  induction es1 generalizing f with
  | nil => rfl
  | cons e rest ih =>
      cases e <;> simp [afterFired, ih]

theorem subset_afterFired (f : List String) (es : List Event) :
    f ⊆ afterFired f es := by
  induction es generalizing f with
  | nil => exact fun x hx => hx
  | cons e rest ih =>
      cases e with
      | fire id now err =>
          exact fun x hx =>
            ih (id :: f) (List.mem_cons_of_mem _ hx)
      | submit req fid now => exact ih f
      | submitBatch req fids b now => exact ih f
      | del id => exact ih f

theorem wfEvents_append :
    ∀ (es1 : List Event) (c f : List String) (es2 : List Event),
    wfEvents c f (es1 ++ es2) →
    wfEvents c f es1 ∧
      wfEvents (afterCreated c es1) (afterFired f es1) es2 := by
  intro es1
  induction es1 with
  | nil => intro c f es2 h; exact ⟨trivial, h⟩
  | cons e rest ih =>
      intro c f es2 h
      cases e with
      | submit req fid now =>
          obtain ⟨h1, h2⟩ := h
          have := ih _ _ _ h2
          exact ⟨⟨h1, this.1⟩, this.2⟩
      | submitBatch req fids b now =>
          obtain ⟨h1, h2, h3⟩ := h
          have := ih _ _ _ h3
          exact ⟨⟨h1, h2, this.1⟩, this.2⟩
      | fire id now err =>
          obtain ⟨h1, h2, h3⟩ := h
          have := ih _ _ _ h3
          exact ⟨⟨h1, h2, this.1⟩, this.2⟩
      | del id =>
          have := ih _ _ _ h
          exact ⟨this.1, this.2⟩

theorem inv_of_run (parse : String → Option SettingsVal)
    (es : List Event) (hwf : wfEvents [] [] es) :
    Inv (afterCreated [] es) (afterFired [] es) (runTrace parse [] es) ∧
    afterFired [] es ⊆ afterCreated [] es :=
  runTrace_wf_inv parse es [] [] []
    hwf (fun x hx => absurd hx (List.not_mem_nil x)) (Inv_nil _ _)

/-! ### Claim theorems -/

/-- Claim C1 (amended): over every well-formed run of the system's
operations, a stored job's status is never `processing` — the lifecycle
moves directly from `pending` to `completed` or `failed` — and status is
monotonic: once a job is observed in a terminal status, any later
observation of that job is also terminal, never `pending` or
`processing`. -/
theorem C1_status_machine (parse : String → Option SettingsVal) :
    (∀ (es : List Event) (id : String) (c : Conversion),
       wfEvents [] [] es →
       getConversion (runTrace parse [] es) id = some c →
       c.status ≠ Status.processing) ∧
    (∀ (es1 es2 : List Event) (id : String) (c c' : Conversion),
       wfEvents [] [] (es1 ++ es2) →
       getConversion (runTrace parse [] es1) id = some c →
       (c.status = Status.completed ∨ c.status = Status.failed) →
       getConversion (runTrace parse [] (es1 ++ es2)) id = some c' →
       (c'.status = Status.completed ∨ c'.status = Status.failed)) := by
  constructor
  · intro es id c hwf hget
    have hinv := (inv_of_run parse es hwf).1
    rcases (inv_get hinv hget).2 with ⟨h1, _⟩ | ⟨h1, _⟩ | ⟨h1, _⟩ <;>
      rw [h1] <;> decide
  · intro es1 es2 id c c' hwf hget1 hterm hget2
    obtain ⟨hwf1, hwf2⟩ := wfEvents_append es1 [] [] es2 hwf
    have r1 := runTrace_wf_inv parse es1 [] [] [] hwf1
      (fun x hx => absurd hx (List.not_mem_nil x)) (Inv_nil _ _)
    have hidf : id ∈ afterFired [] es1 := by
      rcases (inv_get r1.1 hget1).2 with ⟨h1, _, _, _⟩ | ⟨_, _, _, h4⟩ |
        ⟨_, _, _, h4⟩
      · rw [h1] at hterm
        rcases hterm with h | h <;> exact absurd h (by decide)
      · exact h4
      · exact h4
    have r2 := runTrace_wf_inv parse es2 _ _ _ hwf2 r1.2 r1.1
    rw [runTrace_append] at hget2
    rcases (inv_get r2.1 hget2).2 with ⟨_, _, _, h4⟩ | ⟨h1, _⟩ | ⟨h1, _⟩
    · exact absurd (subset_afterFired _ es2 hidf) h4
    · exact Or.inl h1
    · exact Or.inr h1

/-- Claim C2: a valid single submission returns the created job with
status `pending`, and when its deferred task fires without error, the
stored record seen by `get(id)` is `completed`, carries the download
reference `/api/download/<id>`, and a non-null completion timestamp. -/
theorem C2_single_submission_lifecycle (parse : String → Option SettingsVal)
    (s : Store) (req : SubmitRequest) (fid : String) (now t : Nat)
    (file : UploadedFile) (f g : String)
    (hfile : req.file = some file)
    (hff : req.fromFormat = some f) (hf : f ≠ "")
    (htf : req.toFormat = some g) (hg : g ≠ "") :
    ∃ c, postConversion parse s req fid now =
        (mapSet s fid c, SubmitResult.created c) ∧
      c.status = Status.pending ∧ c.id = fid ∧
      getConversion (postConversion parse s req fid now).1 fid = some c ∧
      (∃ c2,
        getConversion
          (fireTimer (postConversion parse s req fid now).1 fid t false)
          fid = some c2 ∧
        c2.status = Status.completed ∧
        c2.downloadUrl = some ("/api/download/" ++ fid) ∧
        c2.completedAt = some t) := by
  have hv : ¬ (f = "" ∨ g = "") := by
    intro h
    rcases h with h | h
    · exact hf h
    · exact hg h
  have hpost : postConversion parse s req fid now =
      (mapSet s fid (buildConversion fid now
          (singleConversionData parse file f g req.quality req.settings)),
        SubmitResult.created (buildConversion fid now
          (singleConversionData parse file f g req.quality req.settings))) := by
    simp only [postConversion, hfile, hff, htf]
    rw [if_neg hv]
    rfl
  refine ⟨buildConversion fid now
    (singleConversionData parse file f g req.quality req.settings),
    hpost, rfl, rfl, ?_, ?_⟩
  · rw [hpost]
    exact mapGet_mapSet_same
  · have hget1 : getConversion (postConversion parse s req fid now).1 fid =
        some (buildConversion fid now
          (singleConversionData parse file f g req.quality req.settings)) := by
      rw [hpost]
      exact mapGet_mapSet_same
    have hstore : fireTimer (postConversion parse s req fid now).1 fid t
        false = mapSet (postConversion parse s req fid now).1 fid
          (applySpread (buildConversion fid now
            (singleConversionData parse file f g req.quality req.settings))
            (completedUpdate fid t)) := by
      simp [fireTimer, updateConversion, hget1]
    refine ⟨applySpread (buildConversion fid now
      (singleConversionData parse file f g req.quality req.settings))
      (completedUpdate fid t), ?_, rfl, rfl, rfl⟩
    rw [hstore]
    exact mapGet_mapSet_same

/-- Claim C4: in every store state reachable by well-formed runs of the
system's operations, a stored record's `downloadUrl` is non-null exactly
when its status is `completed`. -/
theorem C4_downloadUrl_iff_completed (parse : String → Option SettingsVal)
    (es : List Event) (id : String) (c : Conversion)
    (hwf : wfEvents [] [] es)
    (hget : getConversion (runTrace parse [] es) id = some c) :
    (c.downloadUrl ≠ none ↔ c.status = Status.completed) := by
  have hinv := (inv_of_run parse es hwf).1
  rcases (inv_get hinv hget).2 with ⟨h1, h2, _, _⟩ | ⟨h1, h2, _, _⟩ |
    ⟨h1, h2, _, _⟩
  · constructor
    · intro h
      exact absurd h2 h
    · intro h
      rw [h1] at h
      exact absurd h (by decide)
  · constructor
    · intro _
      exact h1
    · intro _
      rw [h2]
      simp
  · constructor
    · intro h
      exact absurd h2 h
    · intro h
      rw [h1] at h
      exact absurd h (by decide)

/-- Claim C5: the store-level update against an absent id returns absent
and leaves the store unchanged (so a deferred timer firing after deletion
is a no-op and cannot raise), and an errored terminal update leaves the
job `failed` with no retry. -/
theorem C5_deleted_id_noop_and_failure :
    (∀ (s : Store) (id : String) (u : ConversionUpdate),
       getConversion s id = none → updateConversion s id u = (s, none)) ∧
    (∀ (s : Store) (id : String) (now : Nat) (er : Bool),
       getConversion s id = none → fireTimer s id now er = s) ∧
    (∀ (s : Store) (id : String) (now : Nat) (c : Conversion),
       getConversion s id = some c →
       statusOf (fireTimer s id now true) id = some Status.failed) := by
  refine ⟨?_, ?_, ?_⟩
  · intro s id u h
    simp [updateConversion, h]
  · intro s id now er h
    cases er <;> simp [fireTimer, updateConversion, h]
  · intro s id now c h
    have hstore : fireTimer s id now true =
        mapSet s id (applySpread c failedUpdate) := by
      simp [fireTimer, updateConversion, h]
    rw [hstore]
    show ((mapGet (mapSet s id (applySpread c failedUpdate)) id).map
      (fun c => c.status)) = some Status.failed
    rw [mapGet_mapSet_same]
    rfl

/-- Claim C6: `GET /api/download/:id` answers not-found for a missing id,
not-ready (a distinct condition) for an existing job that is not
`completed`, and for a completed job exactly one of success or not-found
according to whether the artifact exists at the stored path. -/
theorem C6_resolveDownload_triage (fsExists : String → Bool) (s : Store)
    (id : String) :
    (getConversion s id = none →
       resolveDownload fsExists s id = DownloadResult.notFound) ∧
    (∀ c, getConversion s id = some c → c.status ≠ Status.completed →
       resolveDownload fsExists s id = DownloadResult.notReady) ∧
    (∀ c, getConversion s id = some c → c.status = Status.completed →
       (fsExists c.filePath = true →
          resolveDownload fsExists s id =
            DownloadResult.fileStream c.filePath c) ∧
       (fsExists c.filePath = false →
          resolveDownload fsExists s id = DownloadResult.notFound)) ∧
    DownloadResult.notReady ≠ DownloadResult.notFound := by
  refine ⟨?_, ?_, ?_, by decide⟩
  · intro h
    simp [resolveDownload, h]
  · intro c h hne
    simp [resolveDownload, h, hne]
  · intro c h hc
    constructor
    · intro hfs
      simp [resolveDownload, h, hc, hfs]
    · intro hfs
      simp [resolveDownload, h, hc, hfs]

/-- Claim C8: deletion reports whether a record existed: deleting an
absent id returns `false` without error and leaves the store unchanged,
and a second delete right after a successful one also returns `false`. -/
theorem C8_delete_idempotent (s : Store) (id : String) :
    (getConversion s id = none → deleteConversion s id = (s, false)) ∧
    ((s.map (fun p => p.1)).Nodup → (deleteConversion s id).2 = true →
       deleteConversion (deleteConversion s id).1 id =
         ((deleteConversion s id).1, false)) := by
  constructor
  · intro h
    exact mapDelete_of_get_none h
  · intro hnd _
    exact mapDelete_of_get_none (mapGet_mapDelete_self hnd)

/-- Claim C9: single submission rejects a request whose format fields are
missing (JavaScript-falsy) with a validation error and creates no job;
a settings JSON parse failure is non-fatal — the job is still created
with empty settings in its metadata. -/
theorem C9_validation_and_settings (parse : String → Option SettingsVal)
    (s : Store) (req : SubmitRequest) (fid : String) (now : Nat) :
    (req.file ≠ none →
       (truthy req.fromFormat = false ∨ truthy req.toFormat = false) →
       postConversion parse s req fid now =
         (s, SubmitResult.validationError "Missing format parameters")) ∧
    (∀ file str, req.file = some file → truthy req.fromFormat = true →
       truthy req.toFormat = true → req.settings = some str → str ≠ "" →
       parse str = none →
       ∃ c, postConversion parse s req fid now =
           (mapSet s fid c, SubmitResult.created c) ∧
         c.status = Status.pending ∧
         c.metadata = some
           { quality := some (jsOr req.quality "high")
             settings := some SettingsVal.emptyObj
             isBatch := none
             batchId := none
             batchSize := none }) := by
  constructor
  · intro hfile hfalsy
    cases hf : req.file with
    | none => exact absurd hf hfile
    | some file =>
        cases hff : req.fromFormat with
        | none => simp [postConversion, hf, hff]
        | some f =>
            cases htf : req.toFormat with
            | none => simp [postConversion, hf, hff, htf]
            | some t =>
                have hv : f = "" ∨ t = "" := by
                  rw [hff, htf] at hfalsy
                  simp [truthy] at hfalsy
                  exact hfalsy
                simp only [postConversion, hf, hff, htf]
                rw [if_pos hv]
  · intro file str hf hff htf hset hstr hparse
    cases hffv : req.fromFormat with
    | none => rw [hffv] at hff; exact absurd hff (by decide)
    | some f =>
        cases htfv : req.toFormat with
        | none => rw [htfv] at htf; exact absurd htf (by decide)
        | some t =>
            rw [hffv] at hff
            rw [htfv] at htf
            have hfne : f ≠ "" := by
              simp [truthy] at hff
              exact hff
            have htne : t ≠ "" := by
              simp [truthy] at htf
              exact htf
            have hv : ¬ (f = "" ∨ t = "") := by
              intro h
              rcases h with h | h
              · exact hfne h
              · exact htne h
            refine ⟨buildConversion fid now
              (singleConversionData parse file f t req.quality req.settings),
              ?_, rfl, ?_⟩
            · simp only [postConversion, hf, hffv, htfv]
              rw [if_neg hv]
              rfl
            · show (singleConversionData parse file f t
                req.quality req.settings).metadata = some _
              simp [singleConversionData, parseSettingsField, hset, hstr,
                hparse]

/-- Claim C10: the failure-path update writes only the status field — the
stored record after an errored terminal transition equals the prior
record with status `failed` and every other field unchanged — and in
every reachable state a `failed` job has null `completedAt` and null
`downloadUrl`. -/
theorem C10_failure_writes_only_status :
    (∀ (s : Store) (id : String) (now : Nat) (c : Conversion),
       getConversion s id = some c →
       getConversion (fireTimer s id now true) id =
         some { c with status := Status.failed }) ∧
    (∀ (parse : String → Option SettingsVal) (es : List Event)
       (id : String) (c : Conversion),
       wfEvents [] [] es →
       getConversion (runTrace parse [] es) id = some c →
       c.status = Status.failed →
       c.downloadUrl = none ∧ c.completedAt = none) := by
  constructor
  · intro s id now c h
    have hstore : fireTimer s id now true =
        mapSet s id (applySpread c failedUpdate) := by
      simp [fireTimer, updateConversion, h]
    rw [hstore]
    show mapGet (mapSet s id (applySpread c failedUpdate)) id = _
    rw [mapGet_mapSet_same]
    rfl
  · intro parse es id c hwf hget hfail
    have hinv := (inv_of_run parse es hwf).1
    rcases (inv_get hinv hget).2 with ⟨h1, h2, h3, _⟩ | ⟨h1, h2, h3, _⟩ |
      ⟨h1, h2, h3, _⟩
    · rw [h1] at hfail
      exact absurd hfail (by decide)
    · rw [h1] at hfail
      exact absurd hfail (by decide)
    · exact ⟨h2, h3⟩

/-- Claim C7: `update(id, partial)` on a present id merges rather than
replaces: the merged record is what `get(id)` returns afterwards, every
field present in the partial takes exactly the value that was set, and
every field absent from the partial keeps its prior value. -/
theorem C7_update_merge_roundtrip (s : Store) (id : String) (c : Conversion)
    (u : ConversionUpdate) (h : getConversion s id = some c) :
    updateConversion s id u =
      (mapSet s id (applySpread c u), some (applySpread c u)) ∧
    getConversion (updateConversion s id u).1 id = some (applySpread c u) ∧
    (∀ v, u.id = some v → (applySpread c u).id = v) ∧
    (u.id = none → (applySpread c u).id = c.id) ∧
    (∀ v, u.fromFormat = some v → (applySpread c u).fromFormat = v) ∧
    (u.fromFormat = none → (applySpread c u).fromFormat = c.fromFormat) ∧
    (∀ v, u.toFormat = some v → (applySpread c u).toFormat = v) ∧
    (u.toFormat = none → (applySpread c u).toFormat = c.toFormat) ∧
    (∀ v, u.originalFilename = some v →
       (applySpread c u).originalFilename = v) ∧
    (u.originalFilename = none →
       (applySpread c u).originalFilename = c.originalFilename) ∧
    (∀ v, u.filePath = some v → (applySpread c u).filePath = v) ∧
    (u.filePath = none → (applySpread c u).filePath = c.filePath) ∧
    (∀ v, u.fileSize = some v → (applySpread c u).fileSize = v) ∧
    (u.fileSize = none → (applySpread c u).fileSize = c.fileSize) ∧
    (∀ v, u.status = some v → (applySpread c u).status = v) ∧
    (u.status = none → (applySpread c u).status = c.status) ∧
    (∀ v, u.downloadUrl = some v → (applySpread c u).downloadUrl = v) ∧
    (u.downloadUrl = none → (applySpread c u).downloadUrl = c.downloadUrl) ∧
    (∀ v, u.createdAt = some v → (applySpread c u).createdAt = v) ∧
    (u.createdAt = none → (applySpread c u).createdAt = c.createdAt) ∧
    (∀ v, u.completedAt = some v → (applySpread c u).completedAt = v) ∧
    (u.completedAt = none → (applySpread c u).completedAt = c.completedAt) ∧
    (∀ v, u.metadata = some v → (applySpread c u).metadata = v) ∧
    (u.metadata = none → (applySpread c u).metadata = c.metadata) := by
  have hupd : updateConversion s id u =
      (mapSet s id (applySpread c u), some (applySpread c u)) := by
    simp [updateConversion, h]
  refine ⟨hupd, by rw [hupd]; exact mapGet_mapSet_same,
    fun v hv => by simp [applySpread, hv],
    fun hv => by simp [applySpread, hv],
    fun v hv => by simp [applySpread, hv],
    fun hv => by simp [applySpread, hv],
    fun v hv => by simp [applySpread, hv],
    fun hv => by simp [applySpread, hv],
    fun v hv => by simp [applySpread, hv],
    fun hv => by simp [applySpread, hv],
    fun v hv => by simp [applySpread, hv],
    fun hv => by simp [applySpread, hv],
    fun v hv => by simp [applySpread, hv],
    fun hv => by simp [applySpread, hv],
    fun v hv => by simp [applySpread, hv],
    fun hv => by simp [applySpread, hv],
    fun v hv => by simp [applySpread, hv],
    fun hv => by simp [applySpread, hv],
    fun v hv => by simp [applySpread, hv],
    fun hv => by simp [applySpread, hv],
    fun v hv => by simp [applySpread, hv],
    fun hv => by simp [applySpread, hv],
    fun v hv => by simp [applySpread, hv],
    fun hv => by simp [applySpread, hv]⟩

/-- The conversions returned by the batch-creation loop depend only on
the fresh ids, the timestamp and the stamped specs — one record per
`(freshId, spec)` pair, in order. -/
theorem createBatchLoop_snd (b : String) (n now : Nat) :
    ∀ (l : List (String × InsertConversion)) (s : Store),
    (createBatchLoop b n now s l).2 = l.map (fun q =>
      buildConversion q.1 now
        { q.2 with metadata := some (stampBatch b n q.2.metadata) }) := by
  intro l
  induction l with
  | nil => intro s; rfl
  | cons q rest ih =>
      obtain ⟨fid, ins⟩ := q
      intro s
      simp [createBatchLoop, createConversion, ih]

/-- With fresh, duplicate-free ids, the batch-creation loop appends its
records to the store in creation order. -/
theorem createBatchLoop_fst (b : String) (n now : Nat) :
    ∀ (l : List (String × InsertConversion)) (s : Store),
    (∀ q ∈ l, ∀ p ∈ s, p.1 ≠ q.1) →
    (l.map (fun q => q.1)).Nodup →
    (createBatchLoop b n now s l).1 = s ++ l.map (fun q =>
      (q.1, buildConversion q.1 now
        { q.2 with metadata := some (stampBatch b n q.2.metadata) })) := by
  intro l
  induction l with
  | nil => intro s _ _; simp [createBatchLoop]
  | cons q rest ih =>
      obtain ⟨fid, ins⟩ := q
      intro s hfr hnd
      simp only [List.map_cons, List.nodup_cons] at hnd
      have hfresh : ∀ p ∈ s, p.1 ≠ fid :=
        fun p hp => hfr (fid, ins) (List.mem_cons_self _ _) p hp
      have hc : (createConversion s fid now
          { ins with metadata := some (stampBatch b n ins.metadata) }).1 =
          s ++ [(fid, buildConversion fid now
            { ins with metadata := some (stampBatch b n ins.metadata) })] :=
        mapSet_of_not_mem hfresh
      show (createBatchLoop b n now (createConversion s fid now _).1 rest).1
        = _
      rw [hc, ih]
      · simp
      · intro q hq p hp
        rcases List.mem_append.mp hp with hp1 | hp1
        · exact hfr q (List.mem_cons_of_mem _ hq) p hp1
        · rcases List.mem_singleton.mp hp1 with rfl
          intro hh
          have hh2 : fid = q.1 := hh
          exact hnd.1 (hh2 ▸ List.mem_map_of_mem (fun r => r.1) hq)
      · exact hnd.2

/-- A record created with batch-stamped metadata matches its batch id. -/
theorem matchesBatch_stamp (b : String) (n now : Nat) (fid : String)
    (ins : InsertConversion) :
    matchesBatch b (buildConversion fid now
      { ins with metadata := some (stampBatch b n ins.metadata) }) = true := by
  simp [matchesBatch, buildConversion, stampBatch]

/-- Claim C3: batch creation from N specs stamps one shared batch id and
`batchSize = N` into every member's (merged) metadata, persists the N
jobs individually in creation order with the supplied fresh ids, and
`getBatch(batchId)` afterwards returns exactly those N jobs. -/
theorem C3_batch_creation_and_correlation (s : Store) (fids : List String)
    (b : String) (now : Nat) (batch : List InsertConversion)
    (hlen : fids.length = batch.length)
    (_hN1 : 1 ≤ batch.length) (_hN10 : batch.length ≤ 10)
    (hnd : fids.Nodup)
    (hfresh : ∀ i ∈ fids, ∀ p ∈ s, p.1 ≠ i)
    (hnob : ∀ p ∈ s, matchesBatch b p.2 = false) :
    (createBatchConversion s fids b now batch).2.length = batch.length ∧
    (createBatchConversion s fids b now batch).2 =
      (fids.zip batch).map (fun q => buildConversion q.1 now
        { q.2 with
            metadata := some (stampBatch b batch.length q.2.metadata) }) ∧
    (∀ c ∈ (createBatchConversion s fids b now batch).2,
       ∃ m, c.metadata = some m ∧ m.batchId = some b ∧
         m.batchSize = some batch.length) ∧
    (createBatchConversion s fids b now batch).2.map (fun c => c.id) =
      fids ∧
    getBatchConversions (createBatchConversion s fids b now batch).1 b =
      (createBatchConversion s fids b now batch).2 ∧
    (∀ (m : Metadata),
       (stampBatch b batch.length (some m)).quality = m.quality ∧
       (stampBatch b batch.length (some m)).settings = m.settings ∧
       (stampBatch b batch.length (some m)).isBatch = m.isBatch) := by
  have hziplen : (fids.zip batch).length = batch.length := by
    rw [List.length_zip, hlen, Nat.min_self]
  have hsnd : (createBatchConversion s fids b now batch).2 =
      (fids.zip batch).map (fun q => buildConversion q.1 now
        { q.2 with
            metadata := some (stampBatch b batch.length q.2.metadata) }) :=
    createBatchLoop_snd b batch.length now (fids.zip batch) s
  have hzfr : ∀ q ∈ fids.zip batch, ∀ p ∈ s, p.1 ≠ q.1 :=
    fun q hq p hp => hfresh q.1 (List.of_mem_zip hq).1 p hp
  have hfst : (createBatchConversion s fids b now batch).1 =
      s ++ (fids.zip batch).map (fun q =>
        (q.1, buildConversion q.1 now
          { q.2 with
              metadata := some (stampBatch b batch.length q.2.metadata) })) :=
    createBatchLoop_fst b batch.length now (fids.zip batch) s
      hzfr (nodup_map_fst_zip _ hnd)
  refine ⟨?_, hsnd, ?_, ?_, ?_, ?_⟩
  · rw [hsnd, List.length_map, hziplen]
  · intro c hc
    rw [hsnd] at hc
    rcases List.mem_map.mp hc with ⟨q, _, hqc⟩
    refine ⟨stampBatch b batch.length q.2.metadata, ?_, ?_, ?_⟩
    · rw [← hqc]
      rfl
    · rfl
    · rfl
  · rw [hsnd, List.map_map]
    have : ((fun c => Conversion.id c) ∘ (fun q => buildConversion q.1 now
        { q.2 with
            metadata := some (stampBatch b batch.length q.2.metadata) })) =
        (fun q : String × InsertConversion => q.1) := by
      funext q
      rfl
    rw [this]
    exact List.map_fst_zip fids batch (le_of_eq hlen)
  · rw [hfst, hsnd]
    unfold getBatchConversions
    rw [List.map_append, List.filter_append, List.map_map]
    have h1 : (s.map (fun p => p.2)).filter (matchesBatch b) = [] := by
      rw [List.filter_eq_nil_iff]
      intro a ha
      rcases List.mem_map.mp ha with ⟨p, hp, hpa⟩
      rw [← hpa]
      simp [hnob p hp]
    have h2 : ((fids.zip batch).map ((fun p : String × Conversion => p.2) ∘
        (fun q => (q.1, buildConversion q.1 now
          { q.2 with
              metadata :=
                some (stampBatch b batch.length q.2.metadata) })))).filter
          (matchesBatch b) =
        (fids.zip batch).map (fun q => buildConversion q.1 now
          { q.2 with
              metadata := some (stampBatch b batch.length q.2.metadata) }) := by
      have hcomp : ((fun p : String × Conversion => p.2) ∘
          (fun q : String × InsertConversion =>
            (q.1, buildConversion q.1 now
              { q.2 with
                  metadata := some (stampBatch b batch.length q.2.metadata) })))
          = (fun q => buildConversion q.1 now
              { q.2 with
                  metadata :=
                    some (stampBatch b batch.length q.2.metadata) }) := by
        funext q
        rfl
      rw [hcomp, List.filter_eq_self]
      intro a ha
      rcases List.mem_map.mp ha with ⟨q, _, hqa⟩
      rw [← hqa]
      exact matchesBatch_stamp b batch.length now q.1 q.2
    rw [h1, h2]
    rfl
  · intro m
    exact ⟨rfl, rfl, rfl⟩

/-! ### Concrete fixtures for the witnesses and counterexample -/

/-- A `JSON.parse` stand-in that fails on every input. -/
def alwaysFailParse : String → Option SettingsVal := fun _ => none

/-- A sample multer upload. -/
def sampleFile : UploadedFile :=
  { originalname := "report.docx"
    path := "uploads/u1"
    size := 2048
    mimetype := "application/octet-stream" }

/-- A valid single-submission request. -/
def sampleReq : SubmitRequest :=
  { file := some sampleFile
    fromFormat := some "docx"
    toFormat := some "pdf"
    quality := some "low"
    settings := none }

/-- A request whose `fromFormat` is the empty string (JavaScript-falsy). -/
def badFormatReq : SubmitRequest :=
  { file := some sampleFile
    fromFormat := some ""
    toFormat := some "pdf"
    quality := none
    settings := none }

/-- A request whose settings field fails to parse. -/
def parseFailReq : SubmitRequest :=
  { file := some sampleFile
    fromFormat := some "docx"
    toFormat := some "pdf"
    quality := none
    settings := some "notjson" }

/-- A stored pending record. -/
def demoPending : Conversion :=
  { id := "j"
    fromFormat := "docx"
    toFormat := "pdf"
    originalFilename := "f.docx"
    filePath := "uploads/p"
    fileSize := 1
    status := Status.pending
    downloadUrl := none
    createdAt := 0
    completedAt := none
    metadata := none }

/-- A stored completed record. -/
def demoCompleted : Conversion :=
  { demoPending with
      status := Status.completed
      downloadUrl := some "/api/download/j"
      completedAt := some 5 }

/-- A partial update touching three fields. -/
def demoUpdate : ConversionUpdate :=
  { status := some Status.completed
    downloadUrl := some (some "/api/download/j")
    completedAt := some (some 9) }

/-- Two batch specs. -/
def sampleSpecs : List InsertConversion :=
  [{ fromFormat := "docx"
     toFormat := "pdf"
     originalFilename := "f1.docx"
     filePath := "uploads/p1"
     fileSize := 10 },
   { fromFormat := "docx"
     toFormat := "pdf"
     originalFilename := "f2.docx"
     filePath := "uploads/p2"
     fileSize := 20 }]

/-- The two-event run creating `job1` and firing its timer cleanly. -/
def sampleTrace : List Event :=
  [Event.submit sampleReq "job1" 0, Event.fire "job1" 5 false]

/-- Counterexample to claim C1 as stated: a well-formed run in which the
job reaches the terminal status `completed` while its observed status was
absent, then `pending`, then `completed` — it never takes the value
`processing` on the way to a terminal status. -/
theorem C1_counterexample :
    wfEvents [] [] sampleTrace ∧
    [statusOf (runTrace alwaysFailParse [] []) "job1",
     statusOf (runTrace alwaysFailParse []
       [Event.submit sampleReq "job1" 0]) "job1",
     statusOf (runTrace alwaysFailParse [] sampleTrace) "job1"] =
      [none, some Status.pending, some Status.completed] ∧
    some Status.processing ∉
      [statusOf (runTrace alwaysFailParse [] []) "job1",
       statusOf (runTrace alwaysFailParse []
         [Event.submit sampleReq "job1" 0]) "job1",
       statusOf (runTrace alwaysFailParse [] sampleTrace) "job1"] := by
  refine ⟨?_, by decide, by decide⟩
  simp [sampleTrace, wfEvents]

/-- Witness for C1 (amended): the record stored after the sample
submission has a status other than `processing`. -/
theorem C1_status_machine_witness :
    (buildConversion "job1" 0 (singleConversionData alwaysFailParse
      sampleFile "docx" "pdf" (some "low") none)).status ≠
      Status.processing :=
  (C1_status_machine alwaysFailParse).1
    [Event.submit sampleReq "job1" 0] "job1" _
    (by simp [wfEvents]) (by decide)

/-- Witness for C2: after the sample submission's timer fires cleanly,
polling the job yields status `completed`. -/
theorem C2_single_submission_lifecycle_witness :
    statusOf (fireTimer
      (postConversion alwaysFailParse [] sampleReq "job1" 0).1
      "job1" 5 false) "job1" = some Status.completed := by
  obtain ⟨c, _, _, _, _, c2, hget2, hst, _, _⟩ :=
    C2_single_submission_lifecycle alwaysFailParse [] sampleReq "job1" 0 5
      sampleFile "docx" "pdf" rfl rfl (by decide) rfl (by decide)
  simp [statusOf, hget2, hst]

/-- Witness for C3: creating a batch of two specs yields two jobs and
`getBatch` returns exactly them. -/
theorem C3_batch_creation_and_correlation_witness :
    (createBatchConversion [] ["a1", "b2"] "batch1" 0 sampleSpecs).2.length
      = 2 ∧
    getBatchConversions
      (createBatchConversion [] ["a1", "b2"] "batch1" 0 sampleSpecs).1
      "batch1" =
      (createBatchConversion [] ["a1", "b2"] "batch1" 0 sampleSpecs).2 := by
  obtain ⟨h1, _, _, _, h5, _⟩ :=
    C3_batch_creation_and_correlation [] ["a1", "b2"] "batch1" 0 sampleSpecs
      rfl (by decide) (by decide) (by decide) (by simp) (by simp)
  exact ⟨h1, h5⟩

/-- Witness for C4: the completed record stored after the sample run
satisfies the download-url/status equivalence. -/
theorem C4_downloadUrl_iff_completed_witness :
    ((applySpread (buildConversion "job1" 0 (singleConversionData
        alwaysFailParse sampleFile "docx" "pdf" (some "low") none))
      (completedUpdate "job1" 5)).downloadUrl ≠ none ↔
     (applySpread (buildConversion "job1" 0 (singleConversionData
        alwaysFailParse sampleFile "docx" "pdf" (some "low") none))
      (completedUpdate "job1" 5)).status = Status.completed) :=
  C4_downloadUrl_iff_completed alwaysFailParse sampleTrace "job1" _
    (by simp [sampleTrace, wfEvents]) (by decide)

/-- Witness for C5: updating an absent id is a no-op returning absent,
firing a timer for an absent id leaves the store unchanged, and an
errored firing leaves a present job `failed`. -/
theorem C5_deleted_id_noop_and_failure_witness :
    updateConversion [] "gone" failedUpdate = ([], none) ∧
    fireTimer [] "gone" 7 true = [] ∧
    statusOf (fireTimer [("j", demoPending)] "j" 7 true) "j" =
      some Status.failed :=
  ⟨C5_deleted_id_noop_and_failure.1 [] "gone" failedUpdate rfl,
   C5_deleted_id_noop_and_failure.2.1 [] "gone" 7 true rfl,
   C5_deleted_id_noop_and_failure.2.2 [("j", demoPending)] "j" 7
     demoPending rfl⟩

/-- Witness for C6: the four download-triage outcomes at concrete
stores. -/
theorem C6_resolveDownload_triage_witness :
    resolveDownload (fun _ => true) [] "nope" = DownloadResult.notFound ∧
    resolveDownload (fun _ => true) [("j", demoPending)] "j" =
      DownloadResult.notReady ∧
    resolveDownload (fun _ => true) [("j", demoCompleted)] "j" =
      DownloadResult.fileStream demoCompleted.filePath demoCompleted ∧
    resolveDownload (fun _ => false) [("j", demoCompleted)] "j" =
      DownloadResult.notFound :=
  ⟨(C6_resolveDownload_triage (fun _ => true) [] "nope").1 rfl,
   (C6_resolveDownload_triage (fun _ => true) [("j", demoPending)] "j").2.1
     demoPending rfl (by decide),
   ((C6_resolveDownload_triage (fun _ => true) [("j", demoCompleted)]
       "j").2.2.1 demoCompleted rfl (by decide)).1 rfl,
   ((C6_resolveDownload_triage (fun _ => false) [("j", demoCompleted)]
       "j").2.2.1 demoCompleted rfl (by decide)).2 rfl⟩

/-- Witness for C7: after a three-field partial update the merged record
is returned by `get`, the set fields carry the new values, and an unset
field keeps its prior value. -/
theorem C7_update_merge_roundtrip_witness :
    getConversion (updateConversion [("j", demoPending)] "j" demoUpdate).1
      "j" = some (applySpread demoPending demoUpdate) ∧
    (applySpread demoPending demoUpdate).status = Status.completed ∧
    (applySpread demoPending demoUpdate).completedAt = some 9 ∧
    (applySpread demoPending demoUpdate).fromFormat = "docx" := by
  have h := C7_update_merge_roundtrip [("j", demoPending)] "j" demoPending
    demoUpdate rfl
  exact ⟨h.2.1, by decide, by decide, by decide⟩

/-- Witness for C8: deleting an absent id returns `false` unchanged, and
a second delete after a successful one returns `false`. -/
theorem C8_delete_idempotent_witness :
    deleteConversion [] "x" = ([], false) ∧
    deleteConversion (deleteConversion [("j", demoPending)] "j").1 "j" =
      ((deleteConversion [("j", demoPending)] "j").1, false) :=
  ⟨(C8_delete_idempotent [] "x").1 rfl,
   (C8_delete_idempotent [("j", demoPending)] "j").2 (by decide)
     (by decide)⟩

/-- Witness for C9: an empty `fromFormat` is rejected with the handler's
validation message and no job, while a failing settings parse still
creates a pending job with empty settings. -/
theorem C9_validation_and_settings_witness :
    postConversion alwaysFailParse [] badFormatReq "j9" 0 =
      ([], SubmitResult.validationError "Missing format parameters") ∧
    (∃ c, postConversion alwaysFailParse [] parseFailReq "j9" 0 =
        (mapSet [] "j9" c, SubmitResult.created c) ∧
      c.status = Status.pending ∧
      c.metadata = some
        { quality := some "high"
          settings := some SettingsVal.emptyObj
          isBatch := none
          batchId := none
          batchSize := none }) := by
  constructor
  · exact (C9_validation_and_settings alwaysFailParse [] badFormatReq "j9"
      0).1 (by decide) (Or.inl (by decide))
  · exact (C9_validation_and_settings alwaysFailParse [] parseFailReq "j9"
      0).2 sampleFile "notjson" rfl (by decide) (by decide) rfl (by decide)
      rfl

/-- Witness for C10: an errored firing flips only the status of the
stored pending record, and the failed record of a concrete errored run
has null download url and completion time. -/
theorem C10_failure_writes_only_status_witness :
    getConversion (fireTimer [("j", demoPending)] "j" 7 true) "j" =
      some { demoPending with status := Status.failed } ∧
    ((applySpread (buildConversion "job1" 0 (singleConversionData
        alwaysFailParse sampleFile "docx" "pdf" (some "low") none))
      failedUpdate).downloadUrl = none ∧
     (applySpread (buildConversion "job1" 0 (singleConversionData
        alwaysFailParse sampleFile "docx" "pdf" (some "low") none))
      failedUpdate).completedAt = none) :=
  ⟨C10_failure_writes_only_status.1 [("j", demoPending)] "j" 7 demoPending
     rfl,
   C10_failure_writes_only_status.2 alwaysFailParse
     [Event.submit sampleReq "job1" 0, Event.fire "job1" 5 true] "job1" _
     (by simp [wfEvents]) (by decide) (by decide)⟩

end ConvBackend
